import Mathlib

/-!
Verification of the watchtower scan-orchestration and change-detection
subsystem.  The Go source is embedded shallowly: pure functions become Lean
functions, the SQLite store becomes an explicit record of lists, effectful
collaborators (HTTP, subfinder, the registry) become oracle functions passed
in as parameters.
-/

namespace Watchtower

/-! ## Identity normalizer (`cleanDomain`, scheduler package)

The Go function works on `string`; we model strings as `List Char` and wrap
into `String` at the boundary.  `strings.TrimPrefix`, `strings.Index`-based
truncation and `strings.TrimSpace` are each modelled by a small function.
-/

/-- Go `unicode.IsSpace` restricted to the characters it recognises for the
inputs at hand: space, tab, newline, vertical tab, form feed, carriage
return, NEL (U+0085) and NBSP (U+00A0). -/
def isSp (c : Char) : Bool :=
  c == ' ' || c == '\t' || c == '\n' || c == Char.ofNat 11 || c == Char.ofNat 12 ||
  c == '\r' || c == Char.ofNat 133 || c == Char.ofNat 160

/-- Boolean test that `p` is a leading segment of `s`. -/
def isPre : List Char → List Char → Bool
  | [], _ => true
  | _ :: _, [] => false
  | a :: as, b :: bs => a == b && isPre as bs

/-- Go `strings.TrimPrefix p s`: drop `p` from the front when present. -/
def trimPre (p s : List Char) : List Char :=
  if isPre p s then s.drop p.length else s

/-- Go `if idx := strings.Index(s, c); idx != -1 { s = s[:idx] }`:
keep everything before the first occurrence of `c`. -/
def cutAt (c : Char) (s : List Char) : List Char :=
  s.takeWhile (fun a => a != c)

/-- Left part of Go `strings.TrimSpace`. -/
def trimL (s : List Char) : List Char := s.dropWhile isSp

/-- Right part of Go `strings.TrimSpace`. -/
def trimR (s : List Char) : List Char := (s.reverse.dropWhile isSp).reverse

/-- Go `strings.TrimSpace`. -/
def trimSpace (s : List Char) : List Char := trimR (trimL s)

/-- The scheduler's `cleanDomain`: strip `https://` then `http://`, cut at the
first `/`, cut at the first `:`, strip a leading `*.`, trim whitespace. -/
def cleanDomain (s : List Char) : List Char :=
  let s1 := trimPre "https://".toList s
  let s2 := trimPre "http://".toList s1
  let s3 := cutAt '/' s2
  let s4 := cutAt ':' s3
  let s5 := trimPre "*.".toList s4
  trimSpace s5

/-- `cleanDomain` at `String` type, as the Go code consumes it. -/
def cleanDomainS (s : String) : String := String.mk (cleanDomain s.toList)

/-! ## Change-tracking store (`database` package)

The SQLite store is modelled as explicit state: the `domains` table is a list
of rows (with their autoincrement `id`) and `status_changes` is an
append-only list.  Timestamps are abstract `Nat` ticks.  `SaveDomain`
follows `database.go` line by line: `SELECT id, is_new, status`, then either
the `INSERT` branch, or conditional `INSERT INTO status_changes` followed by
`UPDATE domains ... WHERE id = ?`.
-/

/-- The Go `database.Domain` value handed to `SaveDomain` (the fields the
call actually uses). -/
structure Domain where
  domain : String
  program : String
  status : String
  discoveredAt : Nat
  lastChecked : Nat
deriving DecidableEq

/-- One row of the `domains` table. -/
structure DomainRow where
  id : Nat
  domain : String
  program : String
  status : String
  discoveredAt : Nat
  lastChecked : Nat
  isNew : Bool
  createdAt : Nat
deriving DecidableEq

/-- One row of the `status_changes` table. -/
structure StatusChange where
  domain : String
  program : String
  oldStatus : String
  newStatus : String
  changedAt : Nat
  notified : Bool
deriving DecidableEq

/-- The store state: both tables plus the autoincrement counter. -/
structure DBState where
  domains : List DomainRow
  changes : List StatusChange
  nextId : Nat
deriving DecidableEq

/-- The state `createTables` produces on a fresh database. -/
def emptyDB : DBState := ⟨[], [], 0⟩

/-- Go `SELECT id, is_new, status FROM domains WHERE domain = ? AND program = ?`
(`QueryRow`: the first matching row, or `sql.ErrNoRows`). -/
def findDomain (st : DBState) (d p : String) : Option DomainRow :=
  st.domains.find? (fun r => r.domain == d && r.program == p)

/-- Go `INSERT INTO domains ... VALUES (?, ?, ?, ?, ?, 1)`.  The table has
`UNIQUE(domain, program)`, so the insert is a no-op (an error the caller
receives) when the key is already present. -/
def insertDomain (st : DBState) (d : Domain) (now : Nat) : DBState :=
  match findDomain st d.domain d.program with
  | some _ => st
  | none =>
    { st with
      domains := st.domains ++
        [⟨st.nextId, d.domain, d.program, d.status, d.discoveredAt, d.lastChecked, true, now⟩],
      nextId := st.nextId + 1 }

/-- Go `INSERT INTO status_changes ... VALUES (?, ?, ?, ?, ?, 0)`. -/
def appendChange (st : DBState) (d : Domain) (old : String) (now : Nat) : DBState :=
  { st with changes := st.changes ++ [⟨d.domain, d.program, old, d.status, now, false⟩] }

/-- Go `UPDATE domains SET status = ?, last_checked = ?, is_new = ? WHERE id = ?`
with `is_new = false`. -/
def updateDomain (st : DBState) (d : Domain) (i : Nat) : DBState :=
  { st with
    domains := st.domains.map (fun q =>
      if q.id = i then { q with status := d.status, lastChecked := d.lastChecked, isNew := false }
      else q) }

/-- The whole of `DB.SaveDomain` run as one atomic operation. -/
def SaveDomain (st : DBState) (d : Domain) (now : Nat) : DBState :=
  match findDomain st d.domain d.program with
  | none => insertDomain st d now
  | some r =>
    let st1 := if r.status ≠ d.status then appendChange st d r.status now else st
    updateDomain st1 d r.id

/-- Where one in-flight `SaveDomain` call stands between its SQL statements.
`readDone` carries what the `SELECT` saw (`none` = `sql.ErrNoRows`, otherwise
the row's `id` and `status`); `changeDone` carries the `id` for the final
`UPDATE`. -/
inductive Phase where
  | start
  | readDone (res : Option (Nat × String))
  | changeDone (id : Nat)
  | finished
deriving DecidableEq

/-- One SQL statement of a `SaveDomain` call.  `SaveDomain` opens no
transaction, so between two statements of one call the statements of a
concurrent call may run; each statement by itself is atomic in SQLite. -/
def stepCall (d : Domain) (now : Nat) : DBState × Phase → DBState × Phase
  | (st, .start) =>
    (st, .readDone ((findDomain st d.domain d.program).map (fun r => (r.id, r.status))))
  | (st, .readDone none) => (insertDomain st d now, .finished)
  | (st, .readDone (some (i, old))) =>
    if old ≠ d.status then (appendChange st d old now, .changeDone i)
    else (st, .changeDone i)
  | (st, .changeDone i) => (updateDomain st d i, .finished)
  | (st, .finished) => (st, .finished)

/-- Two concurrent `SaveDomain` calls interleaved by a schedule: `true` runs
the next statement of call 1, `false` of call 2. -/
def runSched (d1 d2 : Domain) (n1 n2 : Nat) :
    List Bool → DBState × Phase × Phase → DBState × Phase × Phase
  | [], s => s
  | b :: bs, (st, p1, p2) =>
    if b then
      let sp := stepCall d1 n1 (st, p1)
      runSched d1 d2 n1 n2 bs (sp.1, sp.2, p2)
    else
      let sp := stepCall d2 n2 (st, p2)
      runSched d1 d2 n1 n2 bs (sp.1, p1, sp.2)

/-! ## Reachability prober (`healthcheck` package)

HTTP is abstracted as an environment `env : String → Option Nat`: the
response status code the `GET` of a URL yields, or `none` when no response
comes back (connection, TLS or timeout error — including a request that was
cancelled mid-flight).  Which domains the worker pool actually probed before
batch cancellation is abstracted as a predicate `probed`. -/

/-- Go `healthcheck.CheckResult`. -/
structure CheckResult where
  Domain : String
  Status : String
  Error : Option String
deriving DecidableEq

/-- The url loop inside `CheckDomain`: first URL yielding a response with
status `< 500` wins; a `≥ 500` response falls through to the next URL just
like a transport error does; exhaustion yields `down`. -/
def tryUrls (env : String → Option Nat) (domain : String) : List String → CheckResult
  | [] => ⟨domain, "down", some "domain not reachable"⟩
  | u :: rest =>
    match env u with
    | some code => if code < 500 then ⟨domain, "up", none⟩ else tryUrls env domain rest
    | none => tryUrls env domain rest

/-- Go `Service.CheckDomain`: try `https://domain`, then `http://domain`. -/
def CheckDomain (env : String → Option Nat) (domain : String) : CheckResult :=
  tryUrls env domain ["https://" ++ domain, "http://" ++ domain]

/-- Go `Service.CheckDomains`: workers probe some subset of the requested
domains (what was pulled from the queue before `ctx.Done()`), the collected
results are keyed by domain, and the output is rebuilt in request order with
`unknown` filling every gap. -/
def CheckDomains (env : String → Option Nat) (probed : String → Bool)
    (domains : List String) : List CheckResult :=
  domains.map (fun d => if probed d then CheckDomain env d else ⟨d, "unknown", none⟩)

/-! ## Asset expansion adapter (`discovery` package) -/

/-- First-occurrence deduplication, as the Go `map[string]bool` loop does. -/
def dedupAux : List String → List String → List String
  | _, [] => []
  | seen, x :: xs => if x ∈ seen then dedupAux seen xs else x :: dedupAux (x :: seen) xs

/-- Deduplicate keeping first occurrences. -/
def dedup (l : List String) : List String := dedupAux [] l

/-- Go `Service.DiscoverDomains`.  `present` is whether `exec.LookPath`
finds `subfinder`; `tool` is one `DiscoverSubdomains` invocation (a domain
whose invocation failed, timed out, or was never started before the batch
deadline contributes `Except.error`).  The function never returns an
error itself: failures only shrink the result. -/
def DiscoverDomains (present : Bool) (tool : String → Except String (List String))
    (domains : List String) : Except String (List String) :=
  if present then
    Except.ok (dedup (domains.flatMap (fun d =>
      match tool d with
      | .ok l => l
      | .error _ => [])))
  else
    Except.ok []

/-! ## Scheduler (`scheduler` package) -/

/-- The fields of `hackerone.Program.Attributes` the scheduler reads. -/
structure Program where
  name : String
  handle : String
  url : String
  domain : String
  offersBounties : Bool
  submissionState : String

/-- Go `strings.ToUpper` (ASCII, which covers the submission states). -/
def toUpperS (s : String) : String := String.mk (s.toList.map Char.toUpper)

/-- Boolean substring containment, Go `strings.Contains s pat`. -/
def hasSub (pat : List Char) : List Char → Bool
  | [] => pat.isEmpty
  | c :: t => isPre pat (c :: t) || hasSub pat t

/-- Go `strings.Contains` at `String` type. -/
def containsS (s pat : String) : Bool := hasSub pat.toList s.toList

/-- The RDP/VDP heuristic at the top of `processProgram`. -/
def deriveType (p : Program) : String :=
  let subState := toUpperS p.submissionState
  if containsS subState "RDP" || containsS subState "REMOTE" then "RDP"
  else if containsS subState "VDP" || containsS subState "VULNERABILITY" then "VDP"
  else if p.offersBounties then "RDP"
  else "VDP"

/-- The outside world as the scheduler sees it: `SaveProgram`, the scope
fetch, subfinder availability and invocations, the HTTP environment and the
probed-set of the health check worker pool. -/
structure World where
  savePrg : Program → String → Except String Unit
  getScope : String → Except String (List String)
  subPresent : Bool
  subTool : String → Except String (List String)
  env : String → Option Nat
  probed : String → Bool

/-- The scheduler's clean-and-dedup loop over `allDomains`: keep
`cleanDomain domain` when nonempty and not seen before. -/
def dedupCleanAux : List String → List String → List String
  | _, [] => []
  | seen, x :: xs =>
    let c := cleanDomainS x
    if c != "" && !(seen.contains c) then c :: dedupCleanAux (c :: seen) xs
    else dedupCleanAux seen xs

/-- Normalize, drop rejects, deduplicate — the loop before `CheckDomains`. -/
def dedupClean (l : List String) : List String := dedupCleanAux [] l

/-- The `database.Domain` value `processProgram` builds from one health
check result (both timestamps are `time.Now()`). -/
def mkDomainArg (handle : String) (now : Nat) (r : CheckResult) : Domain :=
  ⟨r.Domain, handle, r.Status, now, now⟩

/-- Tail of `processProgram` from subdomain discovery on, for a given
effective scope; returns the processing result together with the list of
`SaveDomain` arguments issued (save errors are logged and dropped). -/
def processScope (w : World) (now : Nat) (p : Program) (scope : List String) :
    Except String Unit × List Domain :=
  let discovered :=
    match DiscoverDomains w.subPresent w.subTool scope with
    | .ok l => l
    | .error _ => []
  let allDomains := scope ++ discovered
  let finalDomains := dedupClean allDomains
  let results := CheckDomains w.env w.probed finalDomains
  (Except.ok (), results.map (mkDomainArg p.handle now))

/-- Go `Scheduler.processProgram`: derive the type, save the program
(failure aborts this program only), fetch the scope (failure degrades to the
empty scope), fall back to the program's own domain, or skip; then discover,
normalize, probe and persist. -/
def processProgram (w : World) (now : Nat) (p : Program) :
    Except String Unit × List Domain :=
  match w.savePrg p (deriveType p) with
  | .error e => (.error e, [])
  | .ok _ =>
    let scope0 :=
      match w.getScope p.handle with
      | .ok l => l
      | .error _ => []
    if scope0.isEmpty then
      if p.domain != "" then processScope w now p [p.domain]
      else (Except.ok (), [])
    else processScope w now p scope0

/-- The scope `processProgram` ends up working on: `none` means the program
is skipped (no scopes and no fallback domain). -/
def effectiveScope (w : World) (p : Program) : Option (List String) :=
  let scope0 :=
    match w.getScope p.handle with
    | .ok l => l
    | .error _ => []
  if scope0.isEmpty then (if p.domain != "" then some [p.domain] else none)
  else some scope0

/-- Go `Scheduler.RunScan`: fetch the program list (failure is the only
error), then run `processProgram` for every program, discarding each
per-program result.  The second component records, per program, the
(`handle`, result) pair of its processing. -/
def RunScan (w : World) (now : Nat) (fetch : Except String (List Program)) :
    Except String Unit × List (String × Except String Unit) :=
  match fetch with
  | .error e => (Except.error ("failed to fetch programs: " ++ e), [])
  | .ok ps => (Except.ok (), ps.map (fun p => (p.handle, (processProgram w now p).1)))

/-! ### Lemmas about the normalizer's building blocks -/

theorem isPre_mem {p s : List Char} (h : isPre p s = true) : ∀ a ∈ p, a ∈ s := by
  induction p generalizing s with
  | nil => intro a ha; simp at ha
  | cons b bs ih =>
    cases s with
    | nil => simp [isPre] at h
    | cons c cs =>
      simp only [isPre, Bool.and_eq_true, beq_iff_eq] at h
      intro a ha
      rcases List.mem_cons.mp ha with rfl | ha
      · exact h.1 ▸ List.mem_cons_self _ _
      · exact List.mem_cons_of_mem _ (ih h.2 a ha)

theorem dropWhile_idem (p : Char → Bool) (l : List Char) :
    (l.dropWhile p).dropWhile p = l.dropWhile p := by
  induction l with
  | nil => rfl
  | cons a t ih =>
    by_cases h : p a
    · rw [List.dropWhile_cons, if_pos h, ih]
    · rw [List.dropWhile_cons, if_neg h, List.dropWhile_cons, if_neg h]

theorem dropWhile_head_false {p : Char → Bool} {l : List Char} {a : Char}
    (h : l.dropWhile p = l) (h2 : l.head? = some a) : p a = false := by
  cases l with
  | nil => simp at h2
  | cons b t =>
    simp only [List.head?_cons, Option.some.injEq] at h2
    subst h2
    by_contra hb
    simp only [Bool.not_eq_false] at hb
    rw [List.dropWhile_cons, if_pos hb] at h
    have := (List.dropWhile_suffix (l := t) p).sublist.length_le
    rw [h] at this
    simp at this

theorem dropWhile_eq_self_of_head {p : Char → Bool} {l : List Char}
    (h : ∀ a, l.head? = some a → p a = false) : l.dropWhile p = l := by
  cases l with
  | nil => rfl
  | cons a t => rw [List.dropWhile_cons, if_neg (by simp [h a rfl])]

theorem trimR_pre (x : List Char) : trimR x <+: x :=
  ⟨(x.reverse.takeWhile isSp).reverse, by
    rw [trimR, ← List.reverse_append, List.takeWhile_append_dropWhile, List.reverse_reverse]⟩

theorem trimL_idem (l : List Char) : trimL (trimL l) = trimL l := dropWhile_idem _ _

theorem trimR_idem (l : List Char) : trimR (trimR l) = trimR l := by
  unfold trimR
  rw [List.reverse_reverse, dropWhile_idem]

theorem trimL_trimR_of_trimL {x : List Char} (h : trimL x = x) :
    trimL (trimR x) = trimR x := by
  refine dropWhile_eq_self_of_head (fun a ha => ?_)
  have hpre : trimR x <+: x := trimR_pre x
  have hx : x.head? = some a := by
    obtain ⟨t, ht⟩ := hpre
    cases htr : trimR x with
    | nil => rw [htr] at ha; simp at ha
    | cons b bs =>
      rw [htr] at ha ht
      simp only [List.head?_cons, Option.some.injEq] at ha
      subst ha
      rw [← ht]
      rfl
  exact dropWhile_head_false h hx

theorem trimSpace_idem (l : List Char) : trimSpace (trimSpace l) = trimSpace l := by
  unfold trimSpace
  rw [trimL_trimR_of_trimL (trimL_idem l), trimR_idem]

theorem trimSpace_subset (l : List Char) : trimSpace l ⊆ l :=
  fun _ ha =>
    (List.dropWhile_suffix isSp).subset ((trimR_pre (trimL l)).subset ha)

theorem trimPre_subset (p s : List Char) : trimPre p s ⊆ s := by
  unfold trimPre
  split
  · exact List.drop_subset _ _
  · exact fun _ h => h

theorem cutAt_subset (c : Char) (s : List Char) : cutAt c s ⊆ s :=
  (List.takeWhile_prefix _).subset

theorem cutAt_mem {c : Char} {s : List Char} {a : Char} (h : a ∈ cutAt c s) : a ≠ c := by
  have := List.mem_takeWhile_imp h
  simpa using this

theorem cutAt_eq_self {c : Char} {s : List Char} (h : ∀ a ∈ s, a ≠ c) : cutAt c s = s :=
  List.takeWhile_eq_self_iff.mpr (fun a ha => by simpa using h a ha)

theorem trimPre_eq_self {p s : List Char} (h : isPre p s = false) : trimPre p s = s := by
  rw [trimPre, if_neg (by simp [h])]

theorem cleanDomain_eq_stages (s : List Char) :
    cleanDomain s =
      trimSpace (trimPre "*.".toList (cutAt ':' (cutAt '/'
        (trimPre "http://".toList (trimPre "https://".toList s))))) := rfl

theorem cleanDomain_chars (s : List Char) : ∀ a ∈ cleanDomain s, a ≠ ':' ∧ a ≠ '/' := by
  intro a ha
  rw [cleanDomain_eq_stages] at ha
  have h5 := trimSpace_subset _ ha
  have h4 := trimPre_subset "*.".toList _ h5
  exact ⟨cutAt_mem h4, cutAt_mem (cutAt_subset ':' _ h4)⟩

theorem cleanDomain_trimmed (s : List Char) : trimSpace (cleanDomain s) = cleanDomain s := by
  rw [cleanDomain_eq_stages s, trimSpace_idem]

/-! ## Claim theorems -/

/-- C7: the identity normalizer `cleanDomain` applies, in order: strip a
leading `https://` or `http://` scheme, truncate at the first `/`, truncate
at the first `:`, strip a leading `*.`, trim surrounding whitespace; an
empty result is the rejection — the scheduler's dedup loop discards it; and
on the example, `cleanDomain "https://*.Example.com:8080/path" =
"Example.com"`. -/
theorem cleanDomain_stage_order_and_example :
    (∀ s : List Char, cleanDomain s =
        trimSpace (trimPre "*.".toList (cutAt ':' (cutAt '/'
          (trimPre "http://".toList (trimPre "https://".toList s))))))
    ∧ cleanDomainS "https://*.Example.com:8080/path" = "Example.com"
    ∧ cleanDomainS "*." = ""
    ∧ dedupClean ["*."] = [] :=
  ⟨fun _ => rfl, by decide, by decide, by decide⟩

/-- C6 (counterexample): `cleanDomain` is not idempotent on all raw strings;
on `"*.*.example.com"` one pass yields `"*.example.com"` and a second pass
strips the remaining wildcard marker. -/
theorem cleanDomain_not_idempotent :
    cleanDomainS (cleanDomainS "*.*.example.com") ≠ cleanDomainS "*.*.example.com" := by
  decide

/-- C6 (amended): `cleanDomain` is idempotent on every raw string whose
normalized form does not itself start with the wildcard marker `*.` (a
leading `*.` can survive one pass when it is preceded by whitespace or by a
second `*.`, and is then stripped by the next pass). -/
theorem cleanDomain_idem (s : List Char)
    (h : isPre "*.".toList (cleanDomain s) = false) :
    cleanDomain (cleanDomain s) = cleanDomain s := by
  have hchars := cleanDomain_chars s
  have hcolon : (':' : Char) ∉ cleanDomain s := fun hmem => (hchars _ hmem).1 rfl
  have h1 : isPre "https://".toList (cleanDomain s) = false := by
    by_contra hh
    simp only [Bool.not_eq_false] at hh
    exact hcolon (isPre_mem hh ':' (by decide))
  have h2 : isPre "http://".toList (cleanDomain s) = false := by
    by_contra hh
    simp only [Bool.not_eq_false] at hh
    exact hcolon (isPre_mem hh ':' (by decide))
  rw [cleanDomain_eq_stages (cleanDomain s), trimPre_eq_self h1, trimPre_eq_self h2,
    cutAt_eq_self (fun a ha => (hchars a ha).2),
    cutAt_eq_self (fun a ha => (hchars a ha).1),
    trimPre_eq_self h, cleanDomain_trimmed]

/-- C6 (witness): the amended idempotence theorem applied to a concrete
input whose normalized form carries no leading wildcard. -/
theorem cleanDomain_idem_witness :
    isPre "*.".toList (cleanDomain "https://sub.example.com/x".toList) = false
    ∧ cleanDomain (cleanDomain "https://sub.example.com/x".toList) =
        cleanDomain "https://sub.example.com/x".toList :=
  ⟨by decide, cleanDomain_idem _ (by decide)⟩

/-! ### Store lemmas and claim theorems -/

/-- Sample row: `(d, p)` observed `down`. -/
def rowDP : DomainRow := ⟨0, "d", "p", "down", 1, 1, true, 1⟩

/-- Sample store holding just `rowDP`. -/
def dbDP : DBState := ⟨[rowDP], [], 1⟩

/-- Sample observation: `(d, p)` seen `up`. -/
def argUp : Domain := ⟨"d", "p", "up", 5, 5⟩

/-- C1: `SaveDomain` creates a `StatusChange` if and only if a `Domain`
record already existed for the `(domain, program)` key and its stored
status differs from the observed one; the first-ever observation of a key
creates none, and a repeat observation with an unchanged status creates
none.  When one is created it is exactly the transition record
(old = stored status, new = observed status, unnotified). -/
theorem SaveDomain_statusChange_iff (st : DBState) (d : Domain) (now : Nat) :
    ((SaveDomain st d now).changes.length = st.changes.length + 1
      ↔ ∃ r, findDomain st d.domain d.program = some r ∧ r.status ≠ d.status)
    ∧ (findDomain st d.domain d.program = none →
        (SaveDomain st d now).changes = st.changes)
    ∧ (∀ r, findDomain st d.domain d.program = some r → r.status = d.status →
        (SaveDomain st d now).changes = st.changes)
    ∧ (∀ r, findDomain st d.domain d.program = some r → r.status ≠ d.status →
        (SaveDomain st d now).changes =
          st.changes ++ [⟨d.domain, d.program, r.status, d.status, now, false⟩]) := by
  cases hf : findDomain st d.domain d.program with
  | none =>
    have hch : (SaveDomain st d now).changes = st.changes := by
      simp only [SaveDomain, hf, insertDomain]
    refine ⟨⟨fun hlen => ?_, ?_⟩, fun _ => hch, ?_, ?_⟩
    · rw [hch] at hlen; omega
    · rintro ⟨r, hr, -⟩; cases hr
    · intro r hr; cases hr
    · intro r hr; cases hr
  | some r =>
    by_cases hst : r.status = d.status
    · have hch : (SaveDomain st d now).changes = st.changes := by
        simp [SaveDomain, hf, updateDomain, hst]
      refine ⟨⟨fun hlen => ?_, ?_⟩, ?_, ?_, ?_⟩
      · rw [hch] at hlen; omega
      · rintro ⟨r', hr', hne⟩
        cases hr'
        exact absurd hst hne
      · intro h; cases h
      · intro r' hr' _
        exact hch
      · intro r' hr' hne
        cases hr'
        exact absurd hst hne
    · have hch : (SaveDomain st d now).changes =
          st.changes ++ [⟨d.domain, d.program, r.status, d.status, now, false⟩] := by
        simp [SaveDomain, hf, updateDomain, appendChange, hst]
      refine ⟨⟨fun _ => ⟨r, rfl, hst⟩, fun _ => by simp [hch]⟩, ?_, ?_, ?_⟩
      · intro h; cases h
      · intro r' hr' heq
        cases hr'
        exact absurd heq hst
      · intro r' hr' _
        cases hr'
        exact hch

/-- C1 (witness): observing `up` over a stored `down` appends exactly one
`StatusChange`. -/
theorem SaveDomain_statusChange_iff_witness :
    (SaveDomain dbDP argUp 5).changes.length = dbDP.changes.length + 1 :=
  (SaveDomain_statusChange_iff dbDP argUp 5).1.mpr ⟨rowDP, by decide, by decide⟩

/-- The at-most-one-record-per-key property, as `List.Pairwise`. -/
def keyUnique (st : DBState) : Prop :=
  st.domains.Pairwise (fun a b => ¬(a.domain = b.domain ∧ a.program = b.program))

theorem keyUnique_SaveDomain {st : DBState} (h : keyUnique st) (d : Domain) (now : Nat) :
    keyUnique (SaveDomain st d now) := by
  cases hf : findDomain st d.domain d.program with
  | none =>
    have habsent : ∀ r ∈ st.domains, ¬(r.domain = d.domain ∧ r.program = d.program) := by
      intro r hr hkey
      have := List.find?_eq_none.mp hf r hr
      simp [hkey.1, hkey.2] at this
    have hsd : SaveDomain st d now = insertDomain st d now := by
      simp only [SaveDomain, hf]
    rw [hsd]
    unfold keyUnique insertDomain
    rw [hf]
    refine List.pairwise_append.mpr ⟨h, List.pairwise_singleton _ _, ?_⟩
    intro a ha b hb
    simp only [List.mem_singleton] at hb
    subst hb
    intro hkey
    exact habsent a ha ⟨hkey.1, hkey.2⟩
  | some r =>
    have hsd : SaveDomain st d now =
        updateDomain (if r.status ≠ d.status then appendChange st d r.status now else st) d r.id := by
      simp only [SaveDomain, hf]
    rw [hsd]
    have hdoms : (if r.status ≠ d.status then appendChange st d r.status now else st).domains
        = st.domains := by split <;> rfl
    unfold keyUnique updateDomain
    rw [hdoms]
    refine List.Pairwise.map _ ?_ h
    intro a b hab hkey
    apply hab
    constructor
    · have ha : ∀ q : DomainRow,
          (if q.id = r.id then { q with status := d.status, lastChecked := d.lastChecked, isNew := false } else q).domain = q.domain := by
        intro q; split <;> rfl
      have hp : ∀ q : DomainRow,
          (if q.id = r.id then { q with status := d.status, lastChecked := d.lastChecked, isNew := false } else q).program = q.program := by
        intro q; split <;> rfl
      rw [← ha a, ← ha b]
      exact hkey.1
    · have hp : ∀ q : DomainRow,
          (if q.id = r.id then { q with status := d.status, lastChecked := d.lastChecked, isNew := false } else q).program = q.program := by
        intro q; split <;> rfl
      rw [← hp a, ← hp b]
      exact hkey.2

/-- C3: after any sequence of `SaveDomain` calls starting from the freshly
created store, the `domains` table holds at most one record per
`(domain, program)` pair. -/
theorem SaveDomain_keyUnique_foldl (ops : List (Domain × Nat)) :
    keyUnique (ops.foldl (fun st dn => SaveDomain st dn.1 dn.2) emptyDB) := by
  suffices h : ∀ st : DBState, keyUnique st →
      keyUnique (ops.foldl (fun st dn => SaveDomain st dn.1 dn.2) st) from
    h emptyDB (List.Pairwise.nil)
  induction ops with
  | nil => intro st hst; exact hst
  | cons op rest ih =>
    intro st hst
    exact ih _ (keyUnique_SaveDomain hst op.1 op.2)

/-- C10: when `SaveDomain` hits an existing `(domain, program)` record, the
table keeps its size, every other row is left exactly as it was, and the
matched row is rewritten with only `status`, `last_checked` and `is_new`
replaced — `id`, `domain`, `program`, `discovered_at` and `created_at`
survive unchanged. -/
theorem SaveDomain_frame (st : DBState) (d : Domain) (now : Nat) (r : DomainRow)
    (hf : findDomain st d.domain d.program = some r) :
    ((SaveDomain st d now).domains.length = st.domains.length)
    ∧ (∀ q ∈ st.domains, q.id ≠ r.id → q ∈ (SaveDomain st d now).domains)
    ∧ ({ r with status := d.status, lastChecked := d.lastChecked, isNew := false }
        ∈ (SaveDomain st d now).domains) := by
  have hdoms : (SaveDomain st d now).domains = st.domains.map (fun q =>
      if q.id = r.id then { q with status := d.status, lastChecked := d.lastChecked, isNew := false }
      else q) := by
    simp only [SaveDomain, hf, updateDomain]
    split <;> rfl
  refine ⟨by rw [hdoms, List.length_map], ?_, ?_⟩
  · intro q hq hqid
    rw [hdoms]
    exact List.mem_map.mpr ⟨q, hq, by rw [if_neg hqid]⟩
  · rw [hdoms]
    exact List.mem_map.mpr ⟨r, List.mem_of_find?_eq_some hf, by rw [if_pos rfl]⟩

/-- C10 (witness): updating the sample store rewrites the stored row in
place, preserving identity and discovery timestamps. -/
theorem SaveDomain_frame_witness :
    (SaveDomain dbDP argUp 5).domains.length = dbDP.domains.length
    ∧ ({ rowDP with status := "up", lastChecked := 5, isNew := false }
        ∈ (SaveDomain dbDP argUp 5).domains) := by
  have h := SaveDomain_frame dbDP argUp 5 rowDP (by decide)
  exact ⟨h.1, h.2.2⟩

/-! ### Interleaved execution of two `SaveDomain` calls -/

theorem runOne3 (st : DBState) (d : Domain) (n : Nat) :
    stepCall d n (stepCall d n (stepCall d n (st, Phase.start))) = (SaveDomain st d n, Phase.finished) := by
  cases hf : findDomain st d.domain d.program with
  | none => simp [stepCall, SaveDomain, hf]
  | some r =>
    by_cases hs : r.status = d.status
    · simp [stepCall, SaveDomain, hf, hs]
    · simp [stepCall, SaveDomain, hf, hs]

theorem runSched_left3 (st : DBState) (d1 d2 : Domain) (n1 n2 : Nat) (p2 : Phase) (bs : List Bool) :
    runSched d1 d2 n1 n2 (true :: true :: true :: bs) (st, Phase.start, p2)
      = runSched d1 d2 n1 n2 bs (SaveDomain st d1 n1, Phase.finished, p2) := by
  have h3 := runOne3 st d1 n1
  simp only [runSched, if_true]
  rw [Prod.mk.eta, Prod.mk.eta, h3]

theorem runSched_right3 (st : DBState) (d1 d2 : Domain) (n1 n2 : Nat) (p1 : Phase) (bs : List Bool) :
    runSched d1 d2 n1 n2 (false :: false :: false :: bs) (st, p1, Phase.start)
      = runSched d1 d2 n1 n2 bs (SaveDomain st d2 n2, p1, Phase.finished) := by
  have h3 := runOne3 st d2 n2
  simp only [runSched, Bool.false_eq_true, if_false]
  rw [Prod.mk.eta, Prod.mk.eta, h3]

/-- C2 (counterexample): `SaveDomain` wraps its SELECT, status-change INSERT
and UPDATE in no transaction, so two concurrent observations of the same
key interleaved read-read-write-write both see the stored `down`, and the
one actual `down → up` transition is recorded by two identical
`StatusChange` rows, where the atomic execution records one. -/
theorem SaveDomain_interleaved_double_record :
    (runSched ⟨"d", "p", "up", 5, 5⟩ ⟨"d", "p", "up", 5, 5⟩ 5 5
        [true, false, true, true, false, false]
        (⟨[⟨0, "d", "p", "down", 1, 1, false, 1⟩], [], 1⟩, Phase.start, Phase.start)).1.changes.length = 2
    ∧ (SaveDomain ⟨[⟨0, "d", "p", "down", 1, 1, false, 1⟩], [], 1⟩ ⟨"d", "p", "up", 5, 5⟩ 5).changes.length = 1
    ∧ (runSched ⟨"d", "p", "up", 5, 5⟩ ⟨"d", "p", "up", 5, 5⟩ 5 5
        [true, false, true, true, false, false]
        (⟨[⟨0, "d", "p", "down", 1, 1, false, 1⟩], [], 1⟩, Phase.start, Phase.start)).1.changes
      = [⟨"d", "p", "down", "up", 5, false⟩, ⟨"d", "p", "down", "up", 5, false⟩] := by
  decide

/-- C2 (amended): each SQL statement of `SaveDomain` is individually atomic,
so when two `SaveDomain` calls for the same key do not overlap — every
statement of one completes before the other starts — the interleaved
execution coincides with the two atomic `SaveDomain` calls run in that
order, and each actual transition yields exactly one `StatusChange`; but
`SaveDomain` opens no transaction, so overlapping statement interleavings
can record one transition twice. -/
theorem SaveDomain_serial_schedules_atomic (st : DBState) (d1 d2 : Domain) (n1 n2 : Nat) :
    runSched d1 d2 n1 n2 [true, true, true, false, false, false] (st, Phase.start, Phase.start)
      = (SaveDomain (SaveDomain st d1 n1) d2 n2, Phase.finished, Phase.finished)
    ∧ runSched d1 d2 n1 n2 [false, false, false, true, true, true] (st, Phase.start, Phase.start)
      = (SaveDomain (SaveDomain st d2 n2) d1 n1, Phase.finished, Phase.finished) := by
  constructor
  · rw [runSched_left3, runSched_right3]
    rfl
  · rw [runSched_right3, runSched_left3]
    rfl

/-! ### Prober lemmas and claim theorems -/

theorem tryUrls_Domain (env : String → Option Nat) (d : String) (us : List String) :
    (tryUrls env d us).Domain = d := by
  induction us with
  | nil => rfl
  | cons u rest ih =>
    simp only [tryUrls]
    cases env u with
    | none => exact ih
    | some c =>
      by_cases hc : c < 500
      · simp [hc]
      · simp [hc, ih]

/-- C4 (counterexample): when both the HTTPS and the HTTP attempt receive a
response with status code 500, `CheckDomain` records `down` even though
both attempts produced a response — refuting «DOWN if and only if both
attempts fail to produce a response». -/
theorem CheckDomain_down_despite_responses :
    (CheckDomain (fun _ => some 500) "example.com").Status = "down"
    ∧ (fun (_ : String) => some 500) ("https://" ++ "example.com") ≠ none
    ∧ (fun (_ : String) => some 500) ("http://" ++ "example.com") ≠ none := by
  decide

/-- C4 (amended): `CheckDomain` tries `https://domain` then `http://domain`;
it classifies UP if and only if some attempt receives a response with
status code below 500 (4xx counts as UP), and records DOWN if and only if
no attempt yields a response with status code below 500 — both attempts
failing to respond, or responding only with status ≥ 500. -/
theorem CheckDomain_up_down_iff (env : String → Option Nat) (domain : String) :
    ((CheckDomain env domain).Status = "up"
      ↔ ((∃ c, env ("https://" ++ domain) = some c ∧ c < 500)
        ∨ (∃ c, env ("http://" ++ domain) = some c ∧ c < 500)))
    ∧ ((CheckDomain env domain).Status = "down"
      ↔ ¬((∃ c, env ("https://" ++ domain) = some c ∧ c < 500)
        ∨ (∃ c, env ("http://" ++ domain) = some c ∧ c < 500)))
    ∧ (CheckDomain env domain).Domain = domain := by
  have hdom : (CheckDomain env domain).Domain = domain := tryUrls_Domain env domain _
  refine ⟨?_, ?_, hdom⟩ <;>
  · rcases h1 : env ("https://" ++ domain) with _ | c1 <;>
    rcases h2 : env ("http://" ++ domain) with _ | c2 <;>
    simp only [CheckDomain, tryUrls, h1, h2] <;>
    ((try split_ifs) <;> simp_all)

/-- C4 (witness): a host answering only over HTTP with a 404 is classified
UP. -/
theorem CheckDomain_up_down_iff_witness :
    (CheckDomain (fun u => if u = "http://w.com" then some 404 else none) "w.com").Status = "up" :=
  ((CheckDomain_up_down_iff (fun u => if u = "http://w.com" then some 404 else none) "w.com").1).mpr
    (Or.inr ⟨404, by decide, by decide⟩)

theorem CheckDomains_getElem (env : String → Option Nat) (probed : String → Bool)
    (domains : List String) (i : Fin domains.length) :
    (CheckDomains env probed domains)[i.val]? =
      some (if probed (domains.get i) then CheckDomain env (domains.get i)
            else ⟨domains.get i, "unknown", none⟩) := by
  unfold CheckDomains
  rw [List.getElem?_map, List.getElem?_eq_getElem i.isLt]
  simp [List.get_eq_getElem]

/-- C5: over any list of requested domains — in particular any non-empty
one — `CheckDomains` returns exactly one result per requested position,
carrying that position's domain; a domain the worker pool never probed
(cancellation, timeout) is reported with status `unknown`, never dropped
and never `down`. -/
theorem CheckDomains_coverage (env : String → Option Nat) (probed : String → Bool)
    (domains : List String) :
    ((CheckDomains env probed domains).length = domains.length)
    ∧ (∀ i : Fin domains.length, ∃ r, (CheckDomains env probed domains)[i.val]? = some r
        ∧ r.Domain = domains.get i)
    ∧ (∀ i : Fin domains.length, probed (domains.get i) = false →
        (CheckDomains env probed domains)[i.val]? =
          some ⟨domains.get i, "unknown", none⟩) := by
  refine ⟨List.length_map _ _, ?_, ?_⟩
  · intro i
    refine ⟨_, CheckDomains_getElem env probed domains i, ?_⟩
    by_cases hp : probed (domains.get i)
    · rw [List.get_eq_getElem] at hp
      simp [hp, tryUrls_Domain, CheckDomain]
    · rw [List.get_eq_getElem] at hp
      simp [hp]
  · intro i hp
    rw [List.get_eq_getElem] at hp
    rw [CheckDomains_getElem env probed domains i]
    simp [List.get_eq_getElem, hp]

/-- C5 (witness): a two-domain batch where only the first domain was probed
still yields two results, the second one `unknown`. -/
theorem CheckDomains_coverage_witness :
    (CheckDomains (fun _ => some 200) (fun d => d == "a") ["a", "b"]).length = 2
    ∧ (CheckDomains (fun _ => some 200) (fun d => d == "a") ["a", "b"])[1]? =
        some ⟨"b", "unknown", none⟩ := by
  refine ⟨(CheckDomains_coverage _ _ _).1, ?_⟩
  exact (CheckDomains_coverage (fun _ => some 200) (fun d => d == "a") ["a", "b"]).2.2
    ⟨1, by decide⟩ (by decide)

/-! ### Scheduler claim theorems -/

/-- Sample program. -/
def prgSample : Program := ⟨"Acme", "acme", "https://h1/acme", "acme.com", true, "open"⟩

/-- Sample world: saves succeed, scope fetch returns nothing, subfinder is
absent, nothing answers HTTP, every domain gets probed. -/
def wSample : World :=
  ⟨fun _ _ => Except.ok (), fun _ => Except.ok [], false,
    fun _ => Except.error "absent", fun _ => none, fun _ => true⟩

/-- Sample world whose program save fails. -/
def wFail : World :=
  ⟨fun _ _ => Except.error "db down", fun _ => Except.ok [], false,
    fun _ => Except.error "absent", fun _ => none, fun _ => true⟩

/-- C8: `RunScan` returns an error exactly when fetching the program list
failed (wrapping that error); when the fetch succeeds, every fetched
program is processed — whatever its individual outcome — and `RunScan`
returns success. -/
theorem RunScan_error_iff (w : World) (now : Nat) (fetch : Except String (List Program)) :
    ((RunScan w now fetch).1 = Except.ok () ↔ ∃ ps, fetch = Except.ok ps)
    ∧ (∀ e, fetch = Except.error e →
        (RunScan w now fetch).1 = Except.error ("failed to fetch programs: " ++ e))
    ∧ (∀ ps, fetch = Except.ok ps → ∀ p ∈ ps,
        (p.handle, (processProgram w now p).1) ∈ (RunScan w now fetch).2) := by
  cases fetch with
  | error e =>
    refine ⟨?_, ?_, ?_⟩
    · simp [RunScan]
    · intro e' he
      cases he
      rfl
    · intro ps hps
      cases hps
  | ok ps =>
    refine ⟨⟨fun _ => ⟨ps, rfl⟩, fun _ => rfl⟩, ?_, ?_⟩
    · intro e he
      cases he
    · intro ps' hps' p hp
      cases hps'
      exact List.mem_map_of_mem _ hp

/-- C8 (witness): a failing fetch surfaces the wrapped error; a successful
fetch is processed per program and — even when every program save fails —
the scan still reports success. -/
theorem RunScan_error_iff_witness :
    (RunScan wSample 0 (Except.error "boom")).1
      = Except.error ("failed to fetch programs: " ++ "boom")
    ∧ ("acme", (processProgram wSample 0 prgSample).1) ∈ (RunScan wSample 0 (Except.ok [prgSample])).2
    ∧ (RunScan wFail 0 (Except.ok [prgSample])).1 = Except.ok () := by
  refine ⟨(RunScan_error_iff wSample 0 _).2.1 "boom" rfl, ?_, ?_⟩
  · exact (RunScan_error_iff wSample 0 _).2.2 [prgSample] rfl prgSample (by simp)
  · exact (RunScan_error_iff wFail 0 (Except.ok [prgSample])).1.mpr ⟨[prgSample], rfl⟩

/-- C9: with subfinder absent from `PATH`, `DiscoverDomains` returns the
empty list and no error for every input, and `processProgram` (whose own
program save succeeded) completes successfully, probing and persisting only
the base scope domains (or the fallback program domain). -/
theorem DiscoverDomains_absent (w : World) (now : Nat) (p : Program)
    (habs : w.subPresent = false)
    (hsave : w.savePrg p (deriveType p) = Except.ok ()) :
    (∀ tool ds, DiscoverDomains false tool ds = Except.ok [])
    ∧ (processProgram w now p).1 = Except.ok ()
    ∧ (processProgram w now p).2 =
        (match effectiveScope w p with
         | none => []
         | some sc => (CheckDomains w.env w.probed (dedupClean sc)).map (mkDomainArg p.handle now)) := by
  have hdisc : ∀ (tool : String → Except String (List String)) (ds : List String),
      DiscoverDomains false tool ds = Except.ok [] := by
    intro tool ds
    simp [DiscoverDomains]
  have hps : ∀ sc, processScope w now p sc =
      (Except.ok (), (CheckDomains w.env w.probed (dedupClean sc)).map (mkDomainArg p.handle now)) := by
    intro sc
    unfold processScope
    rw [habs, hdisc]
    simp
  have hmain : processProgram w now p =
      (match effectiveScope w p with
       | none => (Except.ok (), [])
       | some sc =>
          (Except.ok (), (CheckDomains w.env w.probed (dedupClean sc)).map (mkDomainArg p.handle now))) := by
    unfold processProgram effectiveScope
    rw [hsave]
    cases hg : w.getScope p.handle with
    | ok l =>
      by_cases hl : l.isEmpty
      · by_cases hd : p.domain != ""
        · simp [hl, hd, hps]
        · simp [hl, hd]
      · simp [hl, hps]
    | error e =>
      by_cases hd : p.domain != ""
      · simp [hd, hps]
      · simp [hd]
  refine ⟨hdisc, ?_, ?_⟩
  · rw [hmain]
    cases effectiveScope w p <;> rfl
  · rw [hmain]
    cases effectiveScope w p <;> rfl

/-- C9 (witness): in the sample world (subfinder absent, empty scope, save
succeeding) the program completes successfully. -/
theorem DiscoverDomains_absent_witness :
    DiscoverDomains false (fun _ => Except.error "x") ["a"] = Except.ok []
    ∧ (processProgram wSample 0 prgSample).1 = Except.ok () := by
  have h := DiscoverDomains_absent wSample 0 prgSample rfl rfl
  exact ⟨h.1 _ _, h.2.1⟩

end Watchtower
